import Mathlib

/-!
Verification of the certcheck repository: a shallow embedding of the
certificate-probing engine (pkg/hosts/hosts.go), the promise library
(pkg/gcon/gcon.go) and the PEM reader (pkg/cert/cert.go), with theorems
settling the behavioural claims about them.

External standard-library calls (strings.Split, regexp.MatchString,
sort.Slice, tls.DialWithDialer, pem.Decode, x509.ParseCertificate) are
modelled by their documented contracts: pure calls as faithful Lean
functions, network and parsing effects as oracle parameters, and the
unstable sort as a relation.  All code of the repository itself is
translated line by line.
-/

namespace Certcheck

/-- Model of Go strings.Split(s, sep) for the one-character separator
used by the code (sep = colon).  Splitting the empty string yields a
single empty part, as in Go. -/
def splitOnColon : List Char → List (List Char)
  | [] => [[]]
  | c :: rest =>
    if c = ':' then [] :: splitOnColon rest
    else
      match splitOnColon rest with
      | [] => [[c]]
      | p :: ps => (c :: p) :: ps

/-- Model of Go strings.Contains(s, sub) for the one-character substring
used by the code. -/
def goContainsColon (s : String) : Bool :=
  s.data.contains ':'

/-- Model of regexp.MatchString applied to the pattern of one or more
decimal digits: the pattern is unanchored, so it matches exactly when the
string contains at least one digit anywhere. -/
def matchesDigitPattern (s : String) : Bool :=
  s.data.any Char.isDigit

/-- Helper for sprintfNoOperand: scan the character list, rendering each
percent-s verb as the Go missing-operand text. -/
def sprintfNoOperandAux : List Char → List Char
  | [] => []
  | '%' :: 's' :: rest => "%!s(MISSING)".data ++ sprintfNoOperandAux rest
  | c :: rest => c :: sprintfNoOperandAux rest

/-- Model of fmt.Sprintf applied to a format string with zero operands,
as the probe error paths do after concatenating the error text onto the
format string: each percent-s verb renders as percent-bang-s-MISSING. -/
def sprintfNoOperand (s : String) : String :=
  String.mk (sprintfNoOperandAux s.data)

/-- Wrap an unbounded integer into the signed 64-bit range, the way Go
int and int64 arithmetic overflows. -/
def wrap64 (x : Int) : Int :=
  (x + 9223372036854775808) % 18446744073709551616 - 9223372036854775808

/-- CertData, the outcome record for one probed target
(pkg/hosts/hosts.go lines 65 to 79).  Go string fields are String, Go
int fields are Int (64-bit overflow is made explicit with wrap64 where
the code computes), bool fields are Bool. -/
structure CertData where
  expiryWarning : Bool
  hostError     : Bool
  message       : String
  host          : String
  issuer        : String
  port          : String
  totalDays     : Int
  daysToExpiry  : Int
  warnAtDays    : Int
  checkTime     : String
  notBefore     : String
  notAfter      : String
  fetchTime     : String
deriving DecidableEq, Inhabited, Repr

/-- The Go zero value of CertData, as produced by var certData CertData. -/
def zeroCertData : CertData :=
  { expiryWarning := false, hostError := false, message := "", host := ""
    issuer := "", port := "", totalDays := 0, daysToExpiry := 0
    warnAtDays := 0, checkTime := "", notBefore := "", notAfter := ""
    fetchTime := "" }

/-- newCertData (hosts.go lines 82 to 89): a zero CertData whose
checkTime and fetchTime are stamped from the wall clock; the two
formatted clock strings are supplied as parameters since the clock is
external. -/
def newCertData (checkTime fetchTime : String) : CertData :=
  { zeroCertData with checkTime := checkTime, fetchTime := fetchTime }

/-- CertDataSet (hosts.go lines 92 to 97).  The Go int counters only
ever count elements of the certData slice, so they are modelled as Nat;
a Go slice can never reach a length where int64 increments overflow. -/
structure CertDataSet where
  total           : Nat
  hostErrors      : Nat
  expiredWarnings : Nat
  certData        : List CertData
deriving DecidableEq, Inhabited

/-- The counter-accumulating loop of finalize (hosts.go lines 109 to
117): one pass over certData incrementing total always, hostErrors when
hostError is set, expiredWarnings when expiryWarning is set. -/
def finalizeCounts (s : CertDataSet) : CertDataSet :=
  s.certData.foldl
    (fun acc v =>
      { acc with
        total := acc.total + 1
        hostErrors := if v.hostError then acc.hostErrors + 1 else acc.hostErrors
        expiredWarnings :=
          if v.expiryWarning == true then acc.expiredWarnings + 1
          else acc.expiredWarnings })
    s

/-- Go string comparison (byte-wise lexicographic, which on UTF-8 agrees
with codepoint-lexicographic order): modelled as lexicographic order on
the character list. -/
def goStrLess (a b : String) : Prop := a.data < b.data

instance (a b : String) : Decidable (goStrLess a b) :=
  inferInstanceAs (Decidable (a.data < b.data))

/-- Contract of the sort.Slice call in finalize (hosts.go lines 118 to
120) with less i j meaning host i is lexicographically below host j: the
output is a permutation of the input in which no later element is
strictly below an earlier one, so hosts are ascending.  The Go
documentation of sort.Slice guarantees exactly this and explicitly does
not guarantee stability. -/
def SortSliceByHost (inp out : List CertData) : Prop :=
  inp.Perm out ∧ out.Pairwise fun a b => ¬ goStrLess b.host a.host

/-- finalize (hosts.go lines 108 to 121) as a relation between the
pre-state and the finalized set: counters are accumulated by
finalizeCounts and the outcome list is sorted per the sort.Slice
contract. -/
def FinalizeRel (s out : CertDataSet) : Prop :=
  out.total = (finalizeCounts s).total ∧
  out.hostErrors = (finalizeCounts s).hostErrors ∧
  out.expiredWarnings = (finalizeCounts s).expiredWarnings ∧
  SortSliceByHost s.certData out.certData

/-- tlsDefaultPort (hosts.go line 26). -/
def tlsDefaultPort : String := "443"

/-- The port validation getDomainAndPort performs after assigning host
and port (hosts.go lines 341 to 349): match the digit pattern, and on
failure return the already-assigned host and port alongside the error,
per the named-return semantics of the Go function. -/
def portCheck (host port : String) : String × String × Option String :=
  if matchesDigitPattern port then (host, port, none)
  else (host, port, some ("Port is not an integer " ++ port))

/-- getDomainAndPort (hosts.go lines 324 to 351).  Returns host, port
and the error message.  The invalid host-string branch returns early
with empty host and port; every branch that assigns host and port falls
through to the port pattern check, here written as portCheck applied in
each such branch. -/
def getDomainAndPort (input : String) : String × String × Option String :=
  if goContainsColon input then
    let parts := (splitOnColon input.data).map String.mk
    if parts.length = 1 then portCheck (parts.headD "") tlsDefaultPort
    else if parts.length = 2 then portCheck (parts.headD "") (parts.getD 1 "")
    else ("", "", some ("invalid host string " ++ input))
  else portCheck input tlsDefaultPort

/-- The dedup key hostAndPort built by Process and Process2
(fmt.Sprintf host colon port). -/
def hostKey (item : String) : String :=
  (getDomainAndPort item).1 ++ ":" ++ (getDomainAndPort item).2.1

/-- The ambient clock and formatting context of one getCertData call.
The code reads time.Now several times inside one probe; the readings are
nanoseconds apart and are collapsed to the single reading now (a Unix
nanosecond count, the value UnixNano returns).  The formatted timestamp
strings and elapsed-duration strings the code stores are produced by the
external time package and are supplied as oracles. -/
structure ProbeEnv where
  now : Int
  formatTime : Int → String
  checkTimeStr : String
  fetchPlainStr : String
  fetchRoundedStr : String

/-- Outcome of the external tls.DialWithDialer call followed by
conn.VerifyHostname (hosts.go lines 368 to 387): the dial can fail, the
hostname check can fail, or both succeed and the leaf peer certificate
exposes an issuer string and its notBefore and notAfter instants (as
Unix nanosecond counts). -/
inductive DialResult where
  | dialErr (msg : String)
  | verifyErr (msg : String)
  | ok (issuer : String) (notBefore notAfter : Int)
deriving DecidableEq

/-- Nanoseconds in one hour: int(time.Hour). -/
def nanosPerHour : Int := 3600000000000

/-- int64(time.Hour + 24), the threshold the code actually compares
nanosToExpiry against (hosts.go line 408): one hour plus twenty-four
nanoseconds, not twenty-four hours. -/
def hourPlus24 : Int := 3600000000024

/-- int64(time.Hour * 24), nanoseconds in one day. -/
def nanosPerDay : Int := 86400000000000

/-- getCertData (hosts.go lines 354 to 424), translated line by line.
The network call and the clock are oracle parameters; all arithmetic is
Go int64 arithmetic, so every multiplication, subtraction and addition
the code performs is wrapped with wrap64, and Go integer division (which
truncates toward zero) is Int.tdiv. -/
def getCertData (env : ProbeEnv) (dial : DialResult) (host port : String)
    (warnAtDays : Int) (_timeout : Int) : CertData :=
  let base :=
    { newCertData env.checkTimeStr env.fetchRoundedStr with
      host := host, port := port, hostError := false
      warnAtDays := warnAtDays }
  let warnIf := wrap64 (wrap64 (warnAtDays * 24) * nanosPerHour)
  match dial with
  | .dialErr m =>
    { base with
      hostError := true
      message :=
        sprintfNoOperand ("Server doesn\x27t support TLS certificate err: %s" ++ m)
      fetchTime := env.fetchPlainStr }
  | .verifyErr m =>
    { base with
      hostError := true
      message :=
        sprintfNoOperand ("Hostname doesn\x27t match with certificate: %s" ++ m)
      fetchTime := env.fetchPlainStr }
  | .ok issuer notBefore notAfter =>
    let nanosToExpiry := wrap64 (notAfter - env.now)
    let daysLeft : Int :=
      if nanosToExpiry > hourPlus24 then
        (wrap64 (notAfter - env.now)).tdiv nanosPerDay
      else 0
    { base with
      hostError := false
      issuer := issuer
      notBefore := env.formatTime notBefore
      notAfter := env.formatTime notAfter
      daysToExpiry := daysLeft
      totalDays := (wrap64 (notAfter - notBefore)).tdiv nanosPerDay
      message := "OK"
      checkTime := env.formatTime env.now
      expiryWarning := decide (wrap64 (env.now + warnIf) > notAfter)
      fetchTime := env.fetchRoundedStr }

/-- The external context of one Process or Process2 run: getCert is the
outcome getCertData returns for a given host and port (warnAtDays,
timeout and the clock are fixed for the run), and the two strings are
the clock stamps newCertData takes on the parse-error path. -/
structure DispatchEnv where
  getCert : String → String → CertData
  newCheckTime : String
  newFetchTime : String

/-- The outcome Process synthesizes for a target whose normalization
failed (hosts.go lines 282 to 284): a fresh CertData with hostError set
and the parse error text as message. -/
def procErrData (env : DispatchEnv) (msg : String) : CertData :=
  { newCertData env.newCheckTime env.newFetchTime with
    hostError := true, message := msg }

/-- What the Process dispatch loop does with one raw target (hosts.go
lines 259 to 301), instrumented: dedupChecked records that the hostMap
membership test ran, skipped records the dedup-skip path, semAcquired
records that a launched goroutine called sem.Acquire (both goroutine
bodies do, lines 277 and 293), dialed records that getCertData ran and
so a network connection was attempted, and outcome is the CertData the
goroutine sent to the channel, if any. -/
structure TargetStep where
  item : String
  dedupChecked : Bool
  skipped : Bool
  semAcquired : Bool
  dialed : Bool
  outcome : Option CertData
deriving DecidableEq

/-- One iteration of the Process dispatch loop: normalize, build the
dedup key, test-and-set the hostMap, then skip, synthesize a
parse-error outcome, or probe.  Returns the step record and the updated
set of seen keys. -/
def processTarget (env : DispatchEnv) (seen : List String) (item : String) :
    TargetStep × List String :=
  let r := getDomainAndPort item
  let key := r.1 ++ ":" ++ r.2.1
  if seen.contains key then
    (⟨item, true, true, false, false, none⟩, seen)
  else
    match r.2.2 with
    | some msg =>
      (⟨item, true, false, true, false, some (procErrData env msg)⟩, seen ++ [key])
    | none =>
      (⟨item, true, false, true, true, some (env.getCert r.1 r.2.1)⟩, seen ++ [key])

/-- The Process dispatch loop over the whole target list, threading the
hostMap through. -/
def processSteps (env : DispatchEnv) : List String → List String → List TargetStep
  | [], _ => []
  | h :: t, seen =>
    let r := processTarget env seen h
    r.1 :: processSteps env t r.2

/-- The multiset of outcomes Process collects from the channel, in
dispatch order (the channel delivers them in arbitrary order; finalize
re-sorts, so only the multiset matters and dispatch order is a faithful
representative). -/
def processOutcomes (env : DispatchEnv) (hosts : List String) : List CertData :=
  (processSteps env hosts []).filterMap (·.outcome)

/-- HostSet.Process (hosts.go lines 248 to 321) end to end, as a
relation: the returned CertDataSet is a finalize of the fresh set whose
certData is the collected outcomes. -/
def ProcessRel (env : DispatchEnv) (hosts : List String) (out : CertDataSet) : Prop :=
  FinalizeRel ⟨0, 0, 0, processOutcomes env hosts⟩ out

/-- What the Process2 promise body processHost plus the collection loop
do with one raw target (hosts.go lines 193 to 240): normalize, build the
key, test-and-set the shared hostMap under the mutex; if the key was
already present the promise returns the zero CertData, which the
collection loop still appends; otherwise a parse failure yields the
synthesized error outcome and success yields the probe outcome. -/
def process2Target (env : DispatchEnv) (seen : List String) (item : String) :
    CertData × List String :=
  let r := getDomainAndPort item
  let key := r.1 ++ ":" ++ r.2.1
  if seen.contains key then
    (zeroCertData, seen)
  else
    match r.2.2 with
    | some msg => (procErrData env msg, seen ++ [key])
    | none => (env.getCert r.1 r.2.1, seen ++ [key])

/-- The Process2 run over the whole target list: one appended CertData
per promise, in runList order. -/
def process2OutcomesAux (env : DispatchEnv) : List String → List String → List CertData
  | [], _ => []
  | h :: t, seen =>
    let r := process2Target env seen h
    r.1 :: process2OutcomesAux env t r.2

/-- The outcome list Process2 collects: one entry per raw target. -/
def process2Outcomes (env : DispatchEnv) (hosts : List String) : List CertData :=
  process2OutcomesAux env hosts []

/-- HostSet.Process2 (hosts.go lines 187 to 245) end to end, as a
relation mirroring ProcessRel. -/
def Process2Rel (env : DispatchEnv) (hosts : List String) (out : CertDataSet) : Prop :=
  FinalizeRel ⟨0, 0, 0, process2Outcomes env hosts⟩ out

/-- One member promise of a PromiseSet at the moment Wait is invoked:
doneAtWait tells whether the promise had already completed when the
waiter goroutine was spawned, and finalErr is the error the promise
eventually completes with (none for success).  Error values are
modelled by their message strings. -/
structure PromiseSnap where
  doneAtWait : Bool
  finalErr : Option String
deriving DecidableEq

/-- The err field of the copy of the promise struct passed by value to
the waiter goroutine (gcon.go line 61, the argument star-p of the go
statement): the copy is taken when the goroutine is spawned, so it holds
the final error only if the promise had already completed; otherwise it
holds the zero value nil.  The done channel inside the copy is shared,
so the copied promise still unblocks at the right time but reports the
stale err field. -/
def copiedErr (p : PromiseSnap) : Option String :=
  if p.doneAtWait then p.finalErr else none

/-- PromiseSet.Wait (gcon.go lines 49 to 74) and the free function Wait
(gcon.go lines 131 to 155), whose bodies are identical: every waiter
goroutine blocks on the shared done channel of its copied promise, then
sends the copied err to errChan if it is non-nil; the select returns one
received error (arbitrary which, modelled as the first in member order)
or nil after all waiters finish. -/
def promiseSetWait (ps : List PromiseSnap) : Option String :=
  (ps.filterMap copiedErr).head?

deriving instance DecidableEq for Except

/-- One PEM block as pem.Decode yields it: its type word and its raw
bytes (abstracted to a string).  The input of ReadCert is modelled as
the sequence of blocks successive pem.Decode calls produce. -/
structure PemBlock where
  type : String
  bytes : String
deriving DecidableEq

/-- The part of an x509.Certificate the code consults: its DNSNames. -/
structure Cert where
  dnsNames : List String
deriving DecidableEq, Inhabited

/-- pemCertificateBlocks (cert.go lines 11 to 28): scan all decodable
blocks and keep those whose type is CERTIFICATE, in order. -/
def pemCertificateBlocks (blocks : List PemBlock) : List PemBlock :=
  blocks.filter fun b => b.type == "CERTIFICATE"

/-- Result of ReadCert: a returned certificate, a returned error, or a
panic (the code calls panic on an x509 parse failure). -/
inductive ReadCertResult where
  | ok (c : Cert)
  | err (m : String)
  | panics (m : String)
deriving DecidableEq

/-- True exactly on the returned-error result. -/
def ReadCertResult.isErr : ReadCertResult → Bool
  | .err _ => true
  | _ => false

/-- True exactly on the panic result. -/
def ReadCertResult.isPanics : ReadCertResult → Bool
  | .panics _ => true
  | _ => false

/-- The loop of ReadCert (cert.go lines 39 to 50) from the current value
of the named return cert: parse each remaining block, panicking on a
parse failure, stopping at the first certificate with a DNS name, and
otherwise falling off the loop with the last parsed certificate. -/
def readCertScan (parse : PemBlock → Except String Cert) (cur : Cert) :
    List PemBlock → ReadCertResult
  | [] => .ok cur
  | b :: rest =>
    match parse b with
    | .error e => .panics ("failed to parse certificate: " ++ e)
    | .ok c =>
      if c.dnsNames.length > 0 then .ok c
      else readCertScan parse c rest

/-- ReadCert (cert.go lines 31 to 53): collect the CERTIFICATE blocks;
with none, return the no-pem-blocks error; otherwise run the parse loop.
x509.ParseCertificate is the oracle parse. -/
def ReadCert (parse : PemBlock → Except String Cert) (input : List PemBlock) :
    ReadCertResult :=
  let blocks := pemCertificateBlocks input
  if blocks.isEmpty then .err "no pem blocks found"
  else readCertScan parse default blocks

instance (inp out : List CertData) : Decidable (SortSliceByHost inp out) :=
  inferInstanceAs (Decidable (_ ∧ _))

instance (s out : CertDataSet) : Decidable (FinalizeRel s out) :=
  inferInstanceAs (Decidable (_ ∧ _ ∧ _ ∧ _))

instance (env : DispatchEnv) (hosts : List String) (out : CertDataSet) :
    Decidable (ProcessRel env hosts out) :=
  inferInstanceAs (Decidable (FinalizeRel _ _))

instance (env : DispatchEnv) (hosts : List String) (out : CertDataSet) :
    Decidable (Process2Rel env hosts out) :=
  inferInstanceAs (Decidable (FinalizeRel _ _))

/-- A concrete dispatch context used in the concrete check theorems: the
probe oracle returns a successful outcome echoing host and port, and the
clock strings are empty. -/
def cenv : DispatchEnv :=
  ⟨fun h p => { zeroCertData with host := h, port := p, message := "OK" }, "", ""⟩

/-- The outcome cenv.getCert returns for host a port 443. -/
def probeA : CertData :=
  { zeroCertData with host := "a", port := "443", message := "OK" }

/-- A concrete finalized report of Process on the duplicate list a, a. -/
def coutDupProcess : CertDataSet := ⟨1, 0, 0, [probeA]⟩

/-- A concrete finalized report of Process2 on the duplicate list a, a:
the dedup-skipped promise contributes the zero CertData. -/
def coutDupProcess2 : CertDataSet := ⟨2, 0, 0, [zeroCertData, probeA]⟩

/-- The trace step Process performs on the lone unparseable target
badport dot com colon abc. -/
def cstepBadPort : TargetStep :=
  ⟨"badport.com:abc", true, false, true, false,
   some (procErrData cenv "Port is not an integer abc")⟩

/-- Two distinct outcomes with the same host, for the stability check. -/
def cdFirst : CertData := { zeroCertData with host := "a", message := "first" }

/-- Second outcome with the same host as cdFirst. -/
def cdSecond : CertData := { zeroCertData with host := "a", message := "second" }

/-- Pre-finalize set holding cdFirst then cdSecond. -/
def csEqualHosts : CertDataSet := ⟨0, 0, 0, [cdFirst, cdSecond]⟩

/-- A finalized set the sort.Slice contract admits for csEqualHosts in
which the two equal-host outcomes are reversed. -/
def coutSwapped : CertDataSet := ⟨2, 0, 0, [cdSecond, cdFirst]⟩

/-- A concrete probe clock with now at the Unix epoch and empty
formatted strings. -/
def probeEnv0 : ProbeEnv := ⟨0, fun _ => "", "", "", ""⟩

/-- A member promise that is incomplete when Wait is invoked and later
completes with an error. -/
def latePromise : PromiseSnap := ⟨false, some "boom"⟩

/-- A PEM block that parses into a certificate with a DNS name under
parseOracle. -/
def goodBlock : PemBlock := ⟨"CERTIFICATE", "good"⟩

/-- A PEM block that fails to parse under parseOracle. -/
def badBlock : PemBlock := ⟨"CERTIFICATE", "bad"⟩

/-- A concrete x509 parse oracle: block bytes good parse into a
certificate with one DNS name, anything else fails. -/
def parseOracle : PemBlock → Except String Cert := fun b =>
  if b.bytes == "good" then .ok ⟨["a.com"]⟩ else .error "bad block"

/-- The outcome cenv.getCert returns for host b port 8080. -/
def probeB : CertData :=
  { zeroCertData with host := "b", port := "8080", message := "OK" }

/-- A finalized two-outcome report used in concrete checks. -/
def coutAB : CertDataSet := ⟨2, 0, 0, [probeA, probeB]⟩

/-- The parse-error outcome Process synthesizes for target x colon abc
under cenv. -/
def errABC : CertData := procErrData cenv "Port is not an integer abc"

/-- The outcome cenv.getCert returns for host ok.com port 443. -/
def probeOk : CertData :=
  { zeroCertData with host := "ok.com", port := "443", message := "OK" }

/-- A finalized report with one parse-error outcome and one success. -/
def coutErrOk : CertDataSet := ⟨2, 1, 0, [errABC, probeOk]⟩

theorem wrap64_eq_self {x : Int} (h1 : -9223372036854775808 ≤ x)
    (h2 : x < 9223372036854775808) : wrap64 x = x := by
  unfold wrap64
  omega


theorem finalizeCounts_foldl (l : List CertData) (s : CertDataSet) :
    l.foldl
      (fun acc v =>
        { acc with
          total := acc.total + 1
          hostErrors := if v.hostError then acc.hostErrors + 1 else acc.hostErrors
          expiredWarnings :=
            if v.expiryWarning == true then acc.expiredWarnings + 1
            else acc.expiredWarnings }) s
    = { s with
        total := s.total + l.length
        hostErrors := s.hostErrors + l.countP (·.hostError)
        expiredWarnings :=
          s.expiredWarnings + l.countP (fun v => v.expiryWarning == true) } := by
  induction l generalizing s with
  | nil => simp
  | cons v rest ih =>
    simp only [List.foldl_cons, ih, List.countP_cons, List.length_cons]
    cases s
    simp only [CertDataSet.mk.injEq]
    refine ⟨by omega, ?_, ?_, trivial⟩
    · split
      · simp_all
        omega
      · simp_all
    · split
      · simp_all
        omega
      · simp_all

theorem finalizeCounts_spec (s : CertDataSet) :
    finalizeCounts s =
      { s with
        total := s.total + s.certData.length
        hostErrors := s.hostErrors + s.certData.countP (·.hostError)
        expiredWarnings :=
          s.expiredWarnings + s.certData.countP (fun v => v.expiryWarning == true) } :=
  finalizeCounts_foldl s.certData s

theorem card_insert_sdiff (k : String) (T S : Finset String) (hk : k ∉ S) :
    (insert k T \ S).card = (T \ insert k S).card + 1 := by
  have h1 : insert k T \ S = insert k (T \ insert k S) := by
    ext x
    simp only [Finset.mem_sdiff, Finset.mem_insert]
    constructor
    · rintro ⟨h2 | h2, h3⟩
      · exact Or.inl h2
      · by_cases hxk : x = k
        · exact Or.inl hxk
        · exact Or.inr ⟨h2, by tauto⟩
    · rintro (h2 | ⟨h2, h3⟩)
      · exact ⟨Or.inl h2, by simp [h2, hk]⟩
      · exact ⟨Or.inr h2, by tauto⟩
  rw [h1, Finset.card_insert_of_not_mem (by simp)]

theorem toFinset_append_singleton (seen : List String) (k : String) :
    (seen ++ [k]).toFinset = insert k seen.toFinset := by
  simp only [List.toFinset_append]
  rw [Finset.union_comm]
  simp [Finset.insert_eq]

theorem processSteps_filterMap_length (env : DispatchEnv) :
    ∀ (hosts seen : List String),
      ((processSteps env hosts seen).filterMap (·.outcome)).length
        = ((hosts.map hostKey).toFinset \ seen.toFinset).card := by
  intro hosts
  induction hosts with
  | nil => intro seen; simp [processSteps]
  | cons h t ih =>
    intro seen
    rcases hr : getDomainAndPort h with ⟨ho, po, err⟩
    have hkey : hostKey h = ho ++ ":" ++ po := by simp [hostKey, hr]
    by_cases hc : (ho ++ ":" ++ po) ∈ seen
    · have hmem : (ho ++ ":" ++ po) ∈ seen.toFinset := by
        rw [List.mem_toFinset]; exact hc
      have hstep : processSteps env (h :: t) seen
          = ⟨h, true, true, false, false, none⟩ :: processSteps env t seen := by
        simp [processSteps, processTarget, hr, hc]
      rw [hstep]
      simp only [List.filterMap_cons]
      rw [ih seen]
      rw [List.map_cons, List.toFinset_cons, hkey,
        Finset.insert_sdiff_of_mem _ hmem]
    · have hout : ∃ cd, processSteps env (h :: t) seen
          = ⟨h, true, false, true, (match err with | some _ => false | none => true),
              some cd⟩ :: processSteps env t (seen ++ [ho ++ ":" ++ po]) := by
        rcases err with _ | msg
        · exact ⟨env.getCert ho po, by simp [processSteps, processTarget, hr, hc]⟩
        · exact ⟨procErrData env msg, by simp [processSteps, processTarget, hr, hc]⟩
      rcases hout with ⟨cd, hstep⟩
      rw [hstep]
      simp only [List.filterMap_cons]
      rw [List.length_cons, ih (seen ++ [ho ++ ":" ++ po])]
      rw [List.map_cons, List.toFinset_cons, hkey, toFinset_append_singleton]
      rw [card_insert_sdiff]
      rw [List.mem_toFinset]
      exact hc

theorem process_eq_process2_aux (env : DispatchEnv) :
    ∀ (hosts seen : List String), (hosts.map hostKey).Nodup →
      (∀ x ∈ hosts, hostKey x ∉ seen) →
      (processSteps env hosts seen).filterMap (·.outcome)
        = process2OutcomesAux env hosts seen := by
  intro hosts
  induction hosts with
  | nil => intro seen _ _; simp [processSteps, process2OutcomesAux]
  | cons h t ih =>
    intro seen hnd hfresh
    rcases hr : getDomainAndPort h with ⟨ho, po, err⟩
    have hkey : hostKey h = ho ++ ":" ++ po := by simp [hostKey, hr]
    have hnin : (ho ++ ":" ++ po) ∉ seen := by
      rw [← hkey]; exact hfresh h (by simp)
    have hfresh2 : ∀ x ∈ t, hostKey x ∉ seen ++ [ho ++ ":" ++ po] := by
      intro x hx
      simp only [List.mem_append, List.mem_singleton]
      rintro (hmem | hmem)
      · exact hfresh x (List.mem_cons_of_mem _ hx) hmem
      · rw [← hkey] at hmem
        have : hostKey h ∉ t.map hostKey := (List.nodup_cons.mp (by simpa using hnd)).1
        exact this (hmem ▸ List.mem_map_of_mem hostKey hx)
    have hnd2 : (t.map hostKey).Nodup := (List.nodup_cons.mp (by simpa using hnd)).2
    have hcont : ¬ (seen.contains (ho ++ ":" ++ po) = true) := by simpa using hnin
    rcases err with _ | msg
    · simp only [processSteps, process2OutcomesAux, processTarget, process2Target, hr]
      rw [if_neg hcont, if_neg hcont]
      simp only [List.filterMap_cons]
      exact congrArg _ (ih _ hnd2 hfresh2)
    · simp only [processSteps, process2OutcomesAux, processTarget, process2Target, hr]
      rw [if_neg hcont, if_neg hcont]
      simp only [List.filterMap_cons]
      exact congrArg _ (ih _ hnd2 hfresh2)

theorem processSteps_parse_error_aux (env : DispatchEnv) :
    ∀ (hosts seen : List String) (step : TargetStep),
      step ∈ processSteps env hosts seen → ∀ msg,
      (getDomainAndPort step.item).2.2 = some msg → step.skipped = false →
      step.dedupChecked = true ∧ step.semAcquired = true ∧ step.dialed = false ∧
      step.outcome = some (procErrData env msg) := by
  intro hosts
  induction hosts with
  | nil => intro seen step hmem; simp [processSteps] at hmem
  | cons h t ih =>
    intro seen step hmem msg hparse hskip
    rcases hr : getDomainAndPort h with ⟨ho, po, err⟩
    by_cases hc : (ho ++ ":" ++ po) ∈ seen
    · have hstep : processSteps env (h :: t) seen
          = ⟨h, true, true, false, false, none⟩ :: processSteps env t seen := by
        simp [processSteps, processTarget, hr, hc]
      rw [hstep] at hmem
      rcases List.mem_cons.mp hmem with hhead | htail
      · rw [hhead] at hskip; simp at hskip
      · exact ih seen step htail msg hparse hskip
    · rcases err with _ | m
      · have hstep : processSteps env (h :: t) seen
            = ⟨h, true, false, true, true, some (env.getCert ho po)⟩
              :: processSteps env t (seen ++ [ho ++ ":" ++ po]) := by
          simp [processSteps, processTarget, hr, hc]
        rw [hstep] at hmem
        rcases List.mem_cons.mp hmem with hhead | htail
        · rw [hhead] at hparse
          simp only at hparse
          rw [hr] at hparse
          simp at hparse
        · exact ih _ step htail msg hparse hskip
      · have hstep : processSteps env (h :: t) seen
            = ⟨h, true, false, true, false, some (procErrData env m)⟩
              :: processSteps env t (seen ++ [ho ++ ":" ++ po]) := by
          simp [processSteps, processTarget, hr, hc]
        rw [hstep] at hmem
        rcases List.mem_cons.mp hmem with hhead | htail
        · rw [hhead] at hparse ⊢
          simp only at hparse
          rw [hr] at hparse
          simp at hparse
          subst hparse
          simp
        · exact ih _ step htail msg hparse hskip

theorem splitOnColon_length_pos : ∀ l : List Char, 0 < (splitOnColon l).length := by
  intro l
  induction l with
  | nil => simp [splitOnColon]
  | cons c rest ih =>
    simp only [splitOnColon]
    by_cases hc : c = ':'
    · rw [if_pos hc]; simp
    · rw [if_neg hc]
      rcases hsp : splitOnColon rest with _ | ⟨p, ps⟩
      · simp
      · simp

theorem contains_colon_two_le :
    ∀ l : List Char, l.contains ':' = true → 2 ≤ (splitOnColon l).length := by
  intro l
  induction l with
  | nil => intro h; simp at h
  | cons c rest ih =>
    intro h
    simp only [splitOnColon]
    by_cases hc : c = ':'
    · rw [if_pos hc]
      have := splitOnColon_length_pos rest
      simp only [List.length_cons]
      omega
    · rw [if_neg hc]
      have hmem : (':' : Char) ∈ c :: rest := by simpa using h
      have hrest : rest.contains ':' = true := by
        rcases List.mem_cons.mp hmem with hcc | hcc
        · exact absurd hcc.symm hc
        · simpa using hcc
      have h2 := ih hrest
      rcases hsp : splitOnColon rest with _ | ⟨p, ps⟩
      · have := splitOnColon_length_pos rest
        rw [hsp] at this
        simp at this
      · rw [hsp] at h2
        simp only [List.length_cons] at h2 ⊢
        omega

theorem readCertScan_isErr_false (parse : PemBlock → Except String Cert) :
    ∀ (l : List PemBlock) (cur : Cert), (readCertScan parse cur l).isErr = false := by
  intro l
  induction l with
  | nil => intro cur; simp [readCertScan, ReadCertResult.isErr]
  | cons b rest ih =>
    intro cur
    simp only [readCertScan]
    rcases hp : parse b with e | c
    · simp [ReadCertResult.isErr]
    · by_cases hd : c.dnsNames.length > 0
      · simp [hd, ReadCertResult.isErr]
      · simp only [if_neg hd]
        exact ih c

theorem readCertScan_panics (parse : PemBlock → Except String Cert) :
    ∀ (pre : List PemBlock) (b : PemBlock) (post : List PemBlock) (cur : Cert),
      (∀ x ∈ pre, ∃ c, parse x = .ok c ∧ c.dnsNames = []) →
      (∃ e, parse b = .error e) →
      (readCertScan parse cur (pre ++ b :: post)).isPanics = true := by
  intro pre
  induction pre with
  | nil =>
    rintro b post cur - ⟨e, he⟩
    simp [readCertScan, he, ReadCertResult.isPanics]
  | cons x pre ih =>
    intro b post cur hpre hb
    obtain ⟨c, hc, hdns⟩ := hpre x (by simp)
    simp only [List.cons_append, readCertScan, hc, hdns]
    simp only [List.length_nil, gt_iff_lt, lt_self_iff_false, if_false]
    exact ih b post c (fun y hy => hpre y (by simp [hy])) hb

/-- Claim C1: for every list of raw target strings, the report produced
by HostSet.Process contains exactly one outcome per distinct normalized
host-and-port pair; duplicate targets collapse to a single outcome and a
dedup-skipped target contributes no outcome at all.  Formally: in every
finalized report of Process, the number of outcomes equals the number of
distinct dedup keys of the submitted targets. -/
theorem c1_process_outcome_count (env : DispatchEnv) (hosts : List String)
    (out : CertDataSet) (h : ProcessRel env hosts out) :
    out.certData.length = ((hosts.map hostKey).toFinset).card := by
  have hperm : (processOutcomes env hosts).Perm out.certData := h.2.2.2.1
  rw [← hperm.length_eq]
  have hl := processSteps_filterMap_length env hosts []
  simpa [processOutcomes] using hl

/-- Witness for c1_process_outcome_count: a run on the targets a, a and
b colon 8080 yields two outcomes, one per distinct key. -/
theorem c1_witness :
    ProcessRel cenv ["a", "a", "b:8080"] coutAB ∧
    coutAB.certData.length = ((["a", "a", "b:8080"].map hostKey).toFinset).card :=
  ⟨by decide, c1_process_outcome_count cenv ["a", "a", "b:8080"] coutAB (by decide)⟩

/-- Claim C2 (code bug): PromiseSet.Wait and the free Wait are claimed
to return a non-nil error whenever at least one member completed with an
error.  The code passes each promise struct to its waiter goroutine by
value, so a member that completes with an error after Wait starts is
reported from the stale copied err field, which is nil: evaluated at a
set whose single member is incomplete at call time and later fails, Wait
returns nil even though the member errored. -/
theorem c2_wait_misses_late_error :
    promiseSetWait [latePromise] = none ∧ latePromise.finalErr = some "boom" := by
  decide

/-- Counterexample to claim C3 as stated: on the unparseable target
badport.com colon abc, the dispatcher does consult the dedup set and the
launched goroutine does acquire a limiter slot before synthesizing the
hostError outcome, contradicting the without-dedup and without-limiter
parts of the claim.  No network connection is attempted. -/
theorem c3_counterexample :
    processSteps cenv ["badport.com:abc"] [] = [cstepBadPort] ∧
    (getDomainAndPort "badport.com:abc").2.2 = some "Port is not an integer abc" ∧
    cstepBadPort.dedupChecked = true ∧ cstepBadPort.semAcquired = true := by
  decide

/-- Claim C3 as amended: for every raw target whose normalization fails
and that is not dedup-skipped, the dispatcher synthesizes an outcome
with hostError set carrying the parse error message; it checks the dedup
set first and the goroutine acquires a concurrency-limiter slot, but no
network connection is attempted (the probe never runs). -/
theorem c3_parse_error_path_amended (env : DispatchEnv) (hosts : List String)
    (step : TargetStep) (hmem : step ∈ processSteps env hosts [])
    (msg : String) (hparse : (getDomainAndPort step.item).2.2 = some msg)
    (hskip : step.skipped = false) :
    step.dedupChecked = true ∧ step.semAcquired = true ∧ step.dialed = false ∧
    step.outcome = some (procErrData env msg) ∧
    (procErrData env msg).hostError = true ∧ (procErrData env msg).message = msg := by
  have h := processSteps_parse_error_aux env hosts [] step hmem msg hparse hskip
  exact ⟨h.1, h.2.1, h.2.2.1, h.2.2.2, rfl, rfl⟩

/-- Witness for c3_parse_error_path_amended at the concrete unparseable
target badport.com colon abc. -/
theorem c3_witness :
    cstepBadPort ∈ processSteps cenv ["badport.com:abc"] [] ∧
    (cstepBadPort.dedupChecked = true ∧ cstepBadPort.semAcquired = true ∧
     cstepBadPort.dialed = false ∧
     cstepBadPort.outcome = some (procErrData cenv "Port is not an integer abc") ∧
     (procErrData cenv "Port is not an integer abc").hostError = true ∧
     (procErrData cenv "Port is not an integer abc").message
       = "Port is not an integer abc") :=
  ⟨by decide,
   c3_parse_error_path_amended cenv ["badport.com:abc"] cstepBadPort (by decide)
     "Port is not an integer abc" (by decide) (by decide)⟩

/-- Claim C4: in every ReportSet returned by HostSet.Process after
finalize runs, total equals the number of outcomes, hostErrors equals
the count of outcomes with hostError set, and expiredWarnings equals
the count of outcomes with expiryWarning set. -/
theorem c4_finalize_counters (env : DispatchEnv) (hosts : List String)
    (out : CertDataSet) (h : ProcessRel env hosts out) :
    out.total = out.certData.length ∧
    out.hostErrors = out.certData.countP (·.hostError) ∧
    out.expiredWarnings = out.certData.countP (fun v => v.expiryWarning == true) := by
  obtain ⟨ht, hh, he, hperm, hsort⟩ := h
  rw [finalizeCounts_spec] at ht hh he
  simp only at ht hh he
  refine ⟨?_, ?_, ?_⟩
  · rw [ht, ← hperm.length_eq]; simp
  · rw [hh, ← hperm.countP_eq]; simp
  · rw [he, ← hperm.countP_eq]; simp

/-- Witness for c4_finalize_counters: a run with one parse failure and
one success has total two, one host error and no expiry warnings. -/
theorem c4_witness :
    ProcessRel cenv ["x:abc", "ok.com"] coutErrOk ∧
    (coutErrOk.total = coutErrOk.certData.length ∧
     coutErrOk.hostErrors = coutErrOk.certData.countP (·.hostError) ∧
     coutErrOk.expiredWarnings
       = coutErrOk.certData.countP (fun v => v.expiryWarning == true)) :=
  ⟨by decide, c4_finalize_counters cenv ["x:abc", "ok.com"] coutErrOk (by decide)⟩

/-- Counterexample to claim C5 as stated: finalize sorts with
sort.Slice, whose contract does not guarantee stability, so a finalized
output in which two distinct equal-host outcomes appear in reversed
input order satisfies the code model; the stable-sort claim would force
the unique output in original order. -/
theorem c5_counterexample :
    FinalizeRel csEqualHosts coutSwapped ∧
    csEqualHosts.certData = [cdFirst, cdSecond] ∧
    coutSwapped.certData = [cdSecond, cdFirst] ∧
    cdFirst.host = cdSecond.host ∧ cdFirst ≠ cdSecond := by
  decide

/-- Claim C5 as amended: after finalize, the outcome list of every
Process report is a permutation of the collected outcomes that is
sorted ascending by host (no later host is lexicographically below an
earlier one); the relative order of equal-host outcomes is not
guaranteed, because sort.Slice is documented as unstable. -/
theorem c5_outcomes_sorted_amended (env : DispatchEnv) (hosts : List String)
    (out : CertDataSet) (h : ProcessRel env hosts out) :
    out.certData.Perm (processOutcomes env hosts) ∧
    out.certData.Pairwise (fun a b => ¬ goStrLess b.host a.host) :=
  ⟨h.2.2.2.1.symm, h.2.2.2.2⟩

/-- Witness for c5_outcomes_sorted_amended: a run on b colon 8080 then a
finalizes into ascending host order. -/
theorem c5_witness :
    ProcessRel cenv ["b:8080", "a"] coutAB ∧
    (coutAB.certData.Perm (processOutcomes cenv ["b:8080", "a"]) ∧
     coutAB.certData.Pairwise (fun a b => ¬ goStrLess b.host a.host)) :=
  ⟨by decide, c5_outcomes_sorted_amended cenv ["b:8080", "a"] coutAB (by decide)⟩

/-- Claim C6: for every successful probe whose certificate expiry lies
in the signed 64-bit nanosecond range around now, daysToExpiry equals
the whole number of days from now until notAfter clamped below at zero,
and in particular is never negative. -/
theorem c6_days_to_expiry (env : ProbeEnv) (iss : String) (nb na : Int)
    (host port : String) (w t : Int)
    (h1 : -9223372036854775808 ≤ na - env.now)
    (h2 : na - env.now < 9223372036854775808) :
    (getCertData env (.ok iss nb na) host port w t).daysToExpiry
      = max 0 ((na - env.now).tdiv nanosPerDay) ∧
    0 ≤ (getCertData env (.ok iss nb na) host port w t).daysToExpiry := by
  have hmain : (getCertData env (.ok iss nb na) host port w t).daysToExpiry
      = max 0 ((na - env.now).tdiv nanosPerDay) := by
    simp only [getCertData]
    rw [wrap64_eq_self h1 h2]
    by_cases hgt : na - env.now > hourPlus24
    · rw [if_pos hgt, max_eq_right]
      exact Int.tdiv_nonneg (by unfold hourPlus24 at hgt; omega) (by unfold nanosPerDay; omega)
    · rw [if_neg hgt]
      by_cases hpos : 0 ≤ na - env.now
      · rw [max_eq_left]
        rw [Int.tdiv_eq_zero_of_lt hpos (by unfold hourPlus24 at hgt; unfold nanosPerDay; omega)]
      · have hneg : na - env.now ≤ 0 := by omega
        rw [max_eq_left]
        have : (-(na - env.now)).tdiv nanosPerDay ≥ 0 :=
          Int.tdiv_nonneg (by omega) (by unfold nanosPerDay; omega)
        rw [Int.neg_tdiv] at this
        omega
  exact ⟨hmain, by rw [hmain]; exact le_max_left _ _⟩

/-- Witness for c6_days_to_expiry: a certificate expiring two days and a
fraction from now reports two days to expiry. -/
theorem c6_witness :
    (-9223372036854775808 ≤ (200000000000000 : Int) - probeEnv0.now ∧
     (200000000000000 : Int) - probeEnv0.now < 9223372036854775808) ∧
    ((getCertData probeEnv0 (.ok "I" 0 200000000000000) "h" "443" 30 10).daysToExpiry
        = max 0 (((200000000000000 : Int) - probeEnv0.now).tdiv nanosPerDay) ∧
     0 ≤ (getCertData probeEnv0 (.ok "I" 0 200000000000000) "h" "443" 30 10).daysToExpiry) :=
  ⟨⟨by decide, by decide⟩,
   c6_days_to_expiry probeEnv0 "I" 0 200000000000000 "h" "443" 30 10
     (by decide) (by decide)⟩

/-- Counterexample to claim C7 as stated: with now at the epoch, a one
day warn threshold and notAfter exactly one day from now, the claimed
condition now plus warnAtDays at least notAfter holds with equality, yet
the code computes expiryWarning with a strict comparison and reports
false. -/
theorem c7_counterexample :
    (getCertData probeEnv0 (.ok "I" 0 86400000000000) "h" "443" 1 10).expiryWarning
      = false ∧
    probeEnv0.now + 1 * nanosPerDay ≥ (86400000000000 : Int) := by
  decide

/-- Claim C7 as amended: for every successful probe within the signed
64-bit range, expiryWarning is true if and only if now plus warnAtDays
days is strictly greater than notAfter; at exact equality the flag stays
false. -/
theorem c7_expiry_warning_strict_amended (env : ProbeEnv) (iss : String)
    (nb na : Int) (host port : String) (w t : Int)
    (hw1 : -9223372036854775808 ≤ w * 24) (hw2 : w * 24 < 9223372036854775808)
    (hp1 : -9223372036854775808 ≤ w * 24 * nanosPerHour)
    (hp2 : w * 24 * nanosPerHour < 9223372036854775808)
    (hs1 : -9223372036854775808 ≤ env.now + w * 24 * nanosPerHour)
    (hs2 : env.now + w * 24 * nanosPerHour < 9223372036854775808) :
    (getCertData env (.ok iss nb na) host port w t).expiryWarning = true
      ↔ env.now + w * nanosPerDay > na := by
  simp only [getCertData]
  rw [wrap64_eq_self hw1 hw2, wrap64_eq_self hp1 hp2, wrap64_eq_self hs1 hs2]
  simp only [decide_eq_true_eq]
  unfold nanosPerHour nanosPerDay
  omega

/-- Witness for c7_expiry_warning_strict_amended: with a thirty day
threshold and notAfter equal to now, the warning fires. -/
theorem c7_witness :
    ((getCertData probeEnv0 (.ok "I" 0 0) "h" "443" 30 10).expiryWarning = true
      ↔ probeEnv0.now + 30 * nanosPerDay > (0 : Int)) ∧
    probeEnv0.now + 30 * nanosPerDay > (0 : Int) :=
  ⟨c7_expiry_warning_strict_amended probeEnv0 "I" 0 0 "h" "443" 30 10
     (by decide) (by decide) (by decide) (by decide) (by decide) (by decide),
   by decide⟩

/-- Counterexample to claim C8 as stated: the port 1a of the target
badport.com colon 1a is not numeric, yet getDomainAndPort reports no
error, because the digit pattern is unanchored and matches the digit
inside 1a. -/
theorem c8_counterexample :
    getDomainAndPort "badport.com:1a" = ("badport.com", "1a", none) ∧
    ("1a".data.all Char.isDigit) = false := by
  decide

/-- Claim C8 as amended: for every input with at most one colon,
getDomainAndPort returns the invalid-port format error exactly when the
port substring contains no decimal digit at all; a port containing any
digit anywhere passes the unanchored pattern. -/
theorem c8_invalid_port_iff_no_digit_amended (input : String)
    (h : (splitOnColon input.data).length ≤ 2) :
    (getDomainAndPort input).2.2.isSome = true
      ↔ (getDomainAndPort input).2.1.data.any Char.isDigit = false := by
  have hport : ∀ ho po : String,
      ((portCheck ho po).2.2.isSome = true
        ↔ (portCheck ho po).2.1.data.any Char.isDigit = false) := by
    intro ho po
    unfold portCheck matchesDigitPattern
    by_cases hdig : po.data.any Char.isDigit = true
    · rw [if_pos hdig]
      simp [hdig]
    · rw [if_neg hdig]
      simp only [Bool.not_eq_true] at hdig
      simp [hdig]
  by_cases hcol : goContainsColon input = true
  · have h2 : 2 ≤ (splitOnColon input.data).length := by
      apply contains_colon_two_le
      simpa [goContainsColon] using hcol
    obtain ⟨a, b, hab⟩ := List.length_eq_two.mp (le_antisymm h h2)
    have hred : getDomainAndPort input = portCheck (String.mk a) (String.mk b) := by
      unfold getDomainAndPort
      rw [if_pos hcol, hab]
      simp
    rw [hred]
    exact hport _ _
  · have hred : getDomainAndPort input = portCheck input tlsDefaultPort := by
      unfold getDomainAndPort
      rw [if_neg hcol]
    rw [hred]
    exact hport _ _

/-- Witness for c8_invalid_port_iff_no_digit_amended: on the target
badport.com colon abc the error is present and the port has no digit. -/
theorem c8_witness :
    (splitOnColon ("badport.com:abc" : String).data).length ≤ 2 ∧
    ((getDomainAndPort "badport.com:abc").2.2.isSome = true
      ↔ (getDomainAndPort "badport.com:abc").2.1.data.any Char.isDigit = false) :=
  ⟨by decide, c8_invalid_port_iff_no_digit_amended "badport.com:abc" (by decide)⟩

/-- Counterexample to claim C9 as stated: on the duplicate target list
a, a, Process yields one outcome and total one, while Process2 appends a
zero-value outcome for the dedup-skipped promise and yields two outcomes
and total two; the reports differ both in counters and in outcome
multiset. -/
theorem c9_counterexample :
    ProcessRel cenv ["a", "a"] coutDupProcess ∧
    Process2Rel cenv ["a", "a"] coutDupProcess2 ∧
    coutDupProcess.total ≠ coutDupProcess2.total ∧
    ¬ coutDupProcess.certData.Perm coutDupProcess2.certData := by
  decide

/-- Claim C9 as amended: Process and Process2 produce the same outcome
list, and hence the same set of admissible finalized reports, whenever
the target list contains no two targets with the same normalized
host-and-port key; with duplicate keys Process2 additionally appends one
zero-value outcome per dedup-skipped target. -/
theorem c9_process_process2_amended (env : DispatchEnv) (hosts : List String)
    (hnd : (hosts.map hostKey).Nodup) :
    processOutcomes env hosts = process2Outcomes env hosts ∧
    ∀ out, ProcessRel env hosts out ↔ Process2Rel env hosts out := by
  have heq : processOutcomes env hosts = process2Outcomes env hosts := by
    unfold processOutcomes process2Outcomes
    exact process_eq_process2_aux env hosts [] hnd (by simp)
  exact ⟨heq, fun out => by rw [ProcessRel, Process2Rel, heq]⟩

/-- Witness for c9_process_process2_amended on the duplicate-free list
a, b colon 8080. -/
theorem c9_witness :
    (["a", "b:8080"].map hostKey).Nodup ∧
    processOutcomes cenv ["a", "b:8080"] = process2Outcomes cenv ["a", "b:8080"] ∧
    (ProcessRel cenv ["a", "b:8080"] coutAB ↔ Process2Rel cenv ["a", "b:8080"] coutAB) :=
  ⟨by decide,
   (c9_process_process2_amended cenv ["a", "b:8080"] (by decide)).1,
   (c9_process_process2_amended cenv ["a", "b:8080"] (by decide)).2 coutAB⟩

/-- Counterexample to claim C10 as stated: an input whose first
CERTIFICATE block parses into a certificate with a DNS name followed by
a CERTIFICATE block that fails x509 parsing makes ReadCert return that
first certificate: the failing block is present but ReadCert neither
panics nor returns an error, because the loop stops at the first
certificate with DNS names. -/
theorem c10_counterexample :
    ReadCert parseOracle [goodBlock, badBlock] = .ok ⟨["a.com"]⟩ ∧
    parseOracle badBlock = .error "bad block" ∧
    badBlock ∈ pemCertificateBlocks [goodBlock, badBlock] := by
  decide

/-- Claim C10 as amended: ReadCert returns a non-nil error exactly when
its input contains no decodable PEM CERTIFICATE block; and whenever the
scan reaches a failing block, meaning some CERTIFICATE block fails x509
parsing and every earlier CERTIFICATE block parses into a certificate
without DNS names, ReadCert panics instead of returning the parse error
to the caller. -/
theorem c10_readcert_error_panic_amended (parse : PemBlock → Except String Cert)
    (input : List PemBlock) :
    ((ReadCert parse input).isErr = true ↔ pemCertificateBlocks input = []) ∧
    (∀ pre b post,
       pemCertificateBlocks input = pre ++ b :: post →
       (∀ x ∈ pre, ∃ c, parse x = .ok c ∧ c.dnsNames = []) →
       (∃ e, parse b = .error e) →
       (ReadCert parse input).isPanics = true) := by
  constructor
  · unfold ReadCert
    by_cases hniL : (pemCertificateBlocks input).isEmpty = true
    · rw [if_pos hniL]
      simp only [List.isEmpty_iff] at hniL
      simp [ReadCertResult.isErr, hniL]
    · rw [if_neg hniL]
      rw [readCertScan_isErr_false]
      simp only [List.isEmpty_iff] at hniL
      simp [hniL]
  · intro pre b post heq hpre hb
    unfold ReadCert
    have hne : ¬ (pemCertificateBlocks input).isEmpty = true := by
      simp [heq]
    rw [if_neg hne, heq]
    exact readCertScan_panics parse pre b post default hpre hb

/-- Witness for c10_readcert_error_panic_amended: an input whose single
CERTIFICATE block fails parsing makes ReadCert panic. -/
theorem c10_witness :
    pemCertificateBlocks [badBlock] = [badBlock] ∧
    parseOracle badBlock = Except.error "bad block" ∧
    (ReadCert parseOracle [badBlock]).isPanics = true :=
  ⟨by decide, by decide,
   (c10_readcert_error_panic_amended parseOracle [badBlock]).2 [] badBlock []
     (by decide) (fun x hx => absurd hx (List.not_mem_nil x))
     ⟨"bad block", by decide⟩⟩

end Certcheck
